import Mathlib

/-!
# Verification of the expense-tracker store (`src/expense.py`)

Shallow embedding of the `ExpenseTracker` class.  Conventions:

* Python `float` amounts are modelled as exact rationals `ℚ`; `round(x, 2)`
  is modelled as round-half-to-even on rationals (`bround`), which agrees
  with CPython's `round` except on values whose binary-float representation
  straddles a decimal tie — no claim here depends on tie behaviour.
* An in-memory expense dict `{"date": …, "amount": …, "description": …,
  "category": …}` is modelled by the structure `Expense`.  The embedding
  covers persisted files whose JSON content is a list of such flat objects
  (arbitrary field values, possibly violating the data-model invariants);
  other JSON shapes load in Python as raw values on which every later
  operation fails and no claim exercises them.
* The persisted file is modelled by its observable content (`FileState`):
  absent, unreadable/unparseable, or a parsed JSON document.
* Interactive retry loops (`get_valid_amount`, the category-selection loop)
  are modelled as functions over the list of successive user inputs,
  returning `none` while no acceptable input has arrived.
* `print` calls are dropped except where a claim mentions them (the load
  warning is returned as a `Bool`); operation outcomes that differ only by
  the message printed are distinguished by small result inductives.
-/

/-- One expense record: the four-field dict built by `add_expense` /
loaded from the JSON file.  No invariant is baked in: amounts, dates and
categories are unconstrained, exactly as in the Python dicts. -/
structure Expense where
  date : String
  amount : ℚ
  description : String
  category : String
deriving DecidableEq, Repr

/-- A primitive JSON value as it appears in an expense object:
a string or a number. -/
inductive JVal where
  | jstr (s : String)
  | jnum (q : ℚ)
deriving DecidableEq, Repr

/-- First-match association-list lookup: Python dict access `d[k]` /
`k in d` on the modelled dicts. -/
def getVal? (k : String) : List (String × α) → Option α
  | [] => none
  | (k', v) :: rest => if k' = k then some v else getVal? k rest

/-- `self.categories`: the fixed code ↦ label mapping from `__init__`. -/
def categories : List (String × String) :=
  [("1", "Food"), ("2", "Transportation"), ("3", "Entertainment"),
   ("4", "Housing"), ("5", "Utilities"), ("6", "Healthcare"),
   ("7", "Education"), ("8", "Other")]

/-- `json.dump` of one expense dict: its field/value pairs. -/
def encode_expense (e : Expense) : List (String × JVal) :=
  [("date", .jstr e.date), ("amount", .jnum e.amount),
   ("description", .jstr e.description), ("category", .jstr e.category)]

/-- Reading one parsed JSON object back as an expense dict (field lookup
by name, order-insensitive, extra keys ignored — dict semantics). -/
def decode_expense (obj : List (String × JVal)) : Option Expense := do
  let .jstr date ← getVal? "date" obj | none
  let .jnum amount ← getVal? "amount" obj | none
  let .jstr description ← getVal? "description" obj | none
  let .jstr category ← getVal? "category" obj | none
  some ⟨date, amount, description, category⟩

/-- `json.dump(self.expenses, …)`: the document written by `save_data`. -/
def dump_expenses (es : List Expense) : List (List (String × JVal)) :=
  es.map encode_expense

/-- Reading a whole parsed JSON document (a list of objects) back as the
record list. -/
def decode_expenses : List (List (String × JVal)) → Option (List Expense)
  | [] => some []
  | obj :: rest => do
    let e ← decode_expense obj
    let es ← decode_expenses rest
    some (e :: es)

/-- Observable state of the persisted file:
* `missing` — no file at `self.data_file`;
* `corrupt` — an existing file on which `open`/`json.load` fail with one
  of the two exceptions `load_data` catches (`IOError`, i.e. `OSError`,
  or `json.JSONDecodeError`);
* `undecodable` — an existing file on which reading raises an exception
  the `except` clause does NOT cover: bytes that are not valid UTF-8 make
  `file.read()` inside `json.load` raise `UnicodeDecodeError` (a
  `ValueError`, not an `OSError`), and JSON nested beyond the recursion
  limit raises `RecursionError`; either propagates out of `load_data`;
* `content doc` — a readable file whose JSON parses to the document
  `doc` (a list of flat objects). -/
inductive FileState where
  | missing
  | corrupt
  | undecodable
  | content (doc : List (List (String × JVal)))
deriving DecidableEq

/-- The `ExpenseTracker` state: the in-memory list `self.expenses` and the
content of the file at `self.data_file`. -/
structure ExpenseTracker where
  expenses : List Expense
  file : FileState
deriving DecidableEq

/-- `load_data`: if the file exists, try to parse it; on
`JSONDecodeError`/`IOError` print a warning (the returned `Bool`) and
reset to `[]`; on a missing file do nothing.  The file itself is never
written.  The `except` clause covers only those two exceptions, so on an
`undecodable` file the exception escapes `load_data` — modelled as
`none`. -/
def load_data (t : ExpenseTracker) : Option (ExpenseTracker × Bool) :=
  match t.file with
  | .missing => some (t, false)
  | .corrupt => some ({ t with expenses := [] }, true)
  | .undecodable => none
  | .content doc => some ({ t with expenses := (decode_expenses doc).getD [] }, false)

/-- `save_data` (successful write): serialize `self.expenses` over the
file.  The `IOError` branch (state left unchanged, error printed) is not
exercised by any claim. -/
def save_data (t : ExpenseTracker) : ExpenseTracker :=
  { t with file := .content (dump_expenses t.expenses) }

/-- `__init__`: fresh tracker, `self.expenses = []` then
`self.load_data()`; `none` when the load raises and construction
crashes. -/
def init_tracker (f : FileState) : Option ExpenseTracker :=
  (load_data { expenses := [], file := f }).map Prod.fst

/-- Round half to even at integer precision (CPython `round` on the exact
value). -/
def bround (q : ℚ) : ℤ :=
  let f := q - ⌊q⌋
  if f < 1/2 then ⌊q⌋
  else if 1/2 < f then ⌊q⌋ + 1
  else if 2 ∣ ⌊q⌋ then ⌊q⌋ else ⌊q⌋ + 1

/-- Python `round(q, 2)`. -/
def round2 (q : ℚ) : ℚ := (bround (q * 100) : ℚ) / 100

/-- `q` has at most two fraction digits. -/
def two_decimal (q : ℚ) : Prop := (q * 100).den = 1

/-- `get_valid_amount` over the successive (parseable) user inputs: reject
non-positive raw values and retry; on the first positive raw value return
`round(value, 2)`.  `none` = the loop has not produced a value. -/
def get_valid_amount : List ℚ → Option ℚ
  | [] => none
  | a :: rest => if a ≤ 0 then get_valid_amount rest else some (round2 a)

/-- The category-selection loop of `add_expense` over the successive user
inputs: retry until a choice is a key of `categories`, then return its
label. -/
def pick_category : List String → Option String
  | [] => none
  | c :: rest =>
    match getVal? c categories with
    | some lab => some lab
    | none => pick_category rest

/-- `add_expense`: amount via `get_valid_amount`, then description, date
(already validated by `get_valid_date`), then the category loop; append
the new dict and `save_data`. -/
def add_expense (t : ExpenseTracker) (amounts : List ℚ) (description : String)
    (date : String) (catChoices : List String) : Option ExpenseTracker := do
  let a ← get_valid_amount amounts
  let lab ← pick_category catChoices
  some (save_data { t with expenses := t.expenses ++ [⟨date, a, description, lab⟩] })

/-- Python `str.lower()` (ASCII case-folding; the source only ever
compares the result against the ASCII literals `'cancel'` and `'y'`). -/
def str_lower (s : String) : String := ⟨s.toList.map Char.toLower⟩

/-- What `edit_expense` reports. -/
inductive EditResult where
  | noExpenses
  | invalidIndex
  | cancelled
  | updated
deriving DecidableEq, Repr

/-- The field-selector `elif` chain of `edit_expense` applied to one
record.  Selector "4" with a choice that is not a category code leaves the
record unchanged (no retry loop there, unlike `add_expense`); any selector
outside "1"–"4" also changes nothing. -/
def apply_edit (e : Expense) (field : String) (newDate : String) (newAmount : ℚ)
    (newDescription : String) (catChoice : String) : Expense :=
  if field = "1" then { e with date := newDate }
  else if field = "2" then { e with amount := newAmount }
  else if field = "3" then { e with description := newDescription }
  else if field = "4" then
    match getVal? catChoice categories with
    | some lab => { e with category := lab }
    | none => e
  else e

/-- `edit_expense`.  `idx1` is the 1-based number the user typed
(`int(input()) - 1` in the source gives `idx1 - 1`).  The `'cancel'` test
sits after the "1"–"4" branches in the source; since none of those equal
`'cancel'` lowercased, testing it first is equivalent.  Every non-cancel
path through a valid index calls `save_data` — even when no field was
changed. -/
def edit_expense (t : ExpenseTracker) (idx1 : ℤ) (field : String) (newDate : String)
    (newAmount : ℚ) (newDescription : String) (catChoice : String) :
    ExpenseTracker × EditResult :=
  if t.expenses = [] then (t, .noExpenses)
  else if h : 0 ≤ idx1 - 1 ∧ idx1 - 1 < (t.expenses.length : ℤ) then
    if str_lower field = "cancel" then (t, .cancelled)
    else
      let i : Fin t.expenses.length := ⟨(idx1 - 1).toNat, by omega⟩
      let e' := apply_edit (t.expenses.get i) field newDate newAmount newDescription catChoice
      (save_data { t with expenses := t.expenses.set i e' }, .updated)
  else (t, .invalidIndex)

/-- What `delete_expense` reports. -/
inductive DeleteResult where
  | noExpenses
  | invalidIndex
  | notConfirmed
  | deleted
deriving DecidableEq, Repr

/-- `delete_expense`: valid 1-based index plus `'y'` confirmation removes
the record (`del self.expenses[idx]`) and saves; a refused confirmation or
an invalid index mutates nothing. -/
def delete_expense (t : ExpenseTracker) (idx1 : ℤ) (confirm : String) :
    ExpenseTracker × DeleteResult :=
  if t.expenses = [] then (t, .noExpenses)
  else if 0 ≤ idx1 - 1 ∧ idx1 - 1 < (t.expenses.length : ℤ) then
    if str_lower confirm = "y" then
      (save_data { t with expenses := t.expenses.eraseIdx (idx1 - 1).toNat }, .deleted)
    else (t, .notConfirmed)
  else (t, .invalidIndex)

/-- The date-range branch of `filter_expenses`:
`[e for e in self.expenses if start_date <= e['date'] <= end_date]` —
plain lexicographic string comparison. -/
def filter_by_date_range (startD endD : String) (es : List Expense) : List Expense :=
  es.filter fun e => decide (startD ≤ e.date) && decide (e.date ≤ endD)

/-! ## Dates: `datetime.strptime(s, "%Y-%m-%d")` and `strftime("%Y-%m")`

CPython's `_strptime` matches `%Y` against exactly four digits, and `%m`,
`%d` against one or two digits (`1[0-2]|0[1-9]|[1-9]` resp.
`3[01]|[12]\d|0[1-9]|[1-9]`) — so non-zero-padded strings such as
`"2024-1-5"` are accepted.  `datetime` then rejects year `0` and days past
the month length.  `strftime("%Y-%m")` re-emits the month zero-padded.
(For years below 1000 CPython's `%Y` padding is platform-dependent; every
claim here uses four-digit years ≥ 1000, where all platforms agree with
the zero-padded form used below.) -/

/-- Numeric value of a digit string. -/
def digits_to_nat (l : List Char) : ℕ :=
  l.foldl (fun acc c => acc * 10 + (c.toNat - 48)) 0

/-- Splitting a character list at every `'-'` — `s.split('-')` with empty
components preserved, which is how the two literal dashes of the format
partition the input. -/
def split_dashes : List Char → List (List Char)
  | [] => [[]]
  | c :: rest =>
    match split_dashes rest with
    | [] => [[]]
    | grp :: rs => if c = '-' then [] :: grp :: rs else (c :: grp) :: rs

/-- `%Y`: exactly four digits. -/
def year_field (l : List Char) : Option ℕ :=
  if l.length = 4 ∧ l.all Char.isDigit then some (digits_to_nat l) else none

/-- `%m`: one or two digits, value 1–12 (regex `1[0-2]|0[1-9]|[1-9]`). -/
def month_field (l : List Char) : Option ℕ :=
  if (l.length = 1 ∨ l.length = 2) ∧ l.all Char.isDigit then
    let v := digits_to_nat l
    if 1 ≤ v ∧ v ≤ 12 then some v else none
  else none

/-- `%d`: one or two digits, value 1–31 (regex `3[01]|[12]\d|0[1-9]|[1-9]`). -/
def day_field (l : List Char) : Option ℕ :=
  if (l.length = 1 ∨ l.length = 2) ∧ l.all Char.isDigit then
    let v := digits_to_nat l
    if 1 ≤ v ∧ v ≤ 31 then some v else none
  else none

/-- Gregorian leap year, as `datetime` uses. -/
def leap_year (y : ℕ) : Bool := y % 4 = 0 && (y % 100 ≠ 0 || y % 400 = 0)

/-- Length of a month, as `datetime` uses. -/
def days_in_month (y m : ℕ) : ℕ :=
  if m = 2 then (if leap_year y then 29 else 28)
  else if m = 4 ∨ m = 6 ∨ m = 9 ∨ m = 11 then 30
  else 31

/-- `datetime.strptime(s, "%Y-%m-%d")`: `some (y, m, d)` on success,
`none` when a `ValueError` is raised.  The literal dashes force the split
into exactly three components; `datetime` itself then checks `y ≥ 1`
(`MINYEAR`) and the day against the month length. -/
def strptime_ymd (s : String) : Option (ℕ × ℕ × ℕ) :=
  match split_dashes s.toList with
  | [ys, ms, ds] => do
    let y ← year_field ys
    let m ← month_field ms
    let d ← day_field ds
    if 1 ≤ y ∧ d ≤ days_in_month y m then some (y, m, d) else none
  | _ => none

/-- `%m`: fixed-width two-digit zero-padded decimal rendering (months are
1–12, so two digits always suffice). -/
def pad2 (n : ℕ) : String :=
  ⟨[Char.ofNat (48 + n / 10 % 10), Char.ofNat (48 + n % 10)]⟩

/-- `%Y` for four-digit years: fixed-width four-digit zero-padded decimal
rendering (parsed years are ≤ 9999; for years ≥ 1000 — the only ones any
claim uses — every platform agrees with this form). -/
def pad4 (n : ℕ) : String :=
  ⟨[Char.ofNat (48 + n / 1000 % 10), Char.ofNat (48 + n / 100 % 10),
    Char.ofNat (48 + n / 10 % 10), Char.ofNat (48 + n % 10)]⟩

/-- `date.strftime("%Y-%m")` for a parsed `(y, m, d)`. -/
def month_key (y m : ℕ) : String := pad4 y ++ "-" ++ pad2 m

/-- The `(month_year, amount)` stream of `monthly_summary`'s loop; `none`
when some record's date string makes `strptime` raise. -/
def month_pairs : List Expense → Option (List (String × ℚ))
  | [] => some []
  | e :: es =>
    match strptime_ymd e.date with
    | none => none
    | some (y, m, _) => (month_pairs es).map (fun ps => (month_key y m, e.amount) :: ps)

/-- `defaultdict` accumulation step: `data[k] += v` (update the existing
entry, else append a fresh one — Python dicts keep first-insertion
order). -/
def add_to_group (k : String) (v : ℚ) : List (String × ℚ) → List (String × ℚ)
  | [] => [(k, v)]
  | (k', v') :: rest =>
    if k' = k then (k', v' + v) :: rest else (k', v') :: add_to_group k v rest

/-- The whole `defaultdict(float)` accumulation loop over a key/amount
stream. -/
def group_totals (ps : List (String × ℚ)) : List (String × ℚ) :=
  ps.foldl (fun acc kv => add_to_group kv.1 kv.2 acc) []

/-- What `monthly_summary` does: nothing on an empty store, an uncaught
`ValueError` when some date fails to parse, otherwise the printed rows. -/
inductive MonthlyResult where
  | noExpenses
  | dateError
  | rows (l : List (String × ℚ))
deriving DecidableEq, Repr

/-- `monthly_summary`: group by `strftime("%Y-%m")` of the parsed date,
sum amounts, print `sorted(monthly_data.items())` (ascending by the key
string; keys are distinct so the value component never decides). -/
def monthly_summary (es : List Expense) : MonthlyResult :=
  if es = [] then .noExpenses
  else
    match month_pairs es with
    | none => .dateError
    | some ps => .rows (List.insertionSort (fun a b => a.1 ≤ b.1) (group_totals ps))

/-- `sum(expense['amount'] for expense in self.expenses)`. -/
def total_amount (es : List Expense) : ℚ := (es.map (·.amount)).sum

/-- What `category_summary` does: nothing on an empty store; an uncaught
`ZeroDivisionError` when the loop reaches `(amount / total) * 100` with
`total == 0` (which it does as soon as one record exists); otherwise the
printed rows `(category, amount, percentage)`. -/
inductive CategoryResult where
  | noExpenses
  | divisionByZero
  | rows (l : List (String × ℚ × ℚ))
deriving DecidableEq, Repr

/-- `category_summary`: guard only on emptiness, accumulate per category,
sort `key=λx: x[1], reverse=True` (stable descending by amount), and for
each row compute `(amount / total) * 100`. -/
def category_summary (es : List Expense) : CategoryResult :=
  if es = [] then .noExpenses
  else
    let total := total_amount es
    if total = 0 then .divisionByZero
    else
      .rows ((List.insertionSort (fun a b => b.2 ≤ a.2)
        (group_totals (es.map fun e => (e.category, e.amount)))).map
          fun p => (p.1, p.2, p.2 / total * 100))

/-! ## Helper lemmas -/

theorem getVal?_eq_none_iff (k : String) (l : List (String × α)) :
    getVal? k l = none ↔ k ∉ l.map Prod.fst := by
  induction l with
  | nil => simp [getVal?]
  | cons p rest ih =>
    obtain ⟨k', v⟩ := p
    by_cases h : k' = k
    · subst h
      simp [getVal?]
    · simp only [getVal?, if_neg h, List.map_cons, List.mem_cons, not_or, ih]
      exact ⟨fun hn => ⟨fun hk => h hk.symm, hn⟩, fun hn => hn.2⟩

theorem getVal?_mem_values {k : String} {l : List (String × α)} {v : α}
    (h : getVal? k l = some v) : v ∈ l.map Prod.snd := by
  induction l with
  | nil => simp [getVal?] at h
  | cons p rest ih =>
    obtain ⟨k', w⟩ := p
    by_cases hk : k' = k
    · simp [getVal?, hk] at h
      simp [h]
    · simp [getVal?, hk] at h
      simp [ih h]

theorem bround_nonneg {q : ℚ} (h : 0 ≤ q) : 0 ≤ bround q := by
  have h0 : (0 : ℤ) ≤ ⌊q⌋ := Int.le_floor.mpr (by exact_mod_cast h)
  simp only [bround]
  split_ifs <;> omega

theorem round2_nonneg {a : ℚ} (h : 0 ≤ a) : 0 ≤ round2 a := by
  have : (0 : ℚ) ≤ (bround (a * 100) : ℚ) := by
    exact_mod_cast bround_nonneg (by positivity)
  unfold round2
  positivity

theorem two_decimal_round2 (a : ℚ) : two_decimal (round2 a) := by
  unfold two_decimal round2
  rw [div_mul_cancel₀ _ (by norm_num : (100 : ℚ) ≠ 0)]
  exact Rat.den_intCast _

theorem get_valid_amount_some {amounts : List ℚ} {v : ℚ}
    (h : get_valid_amount amounts = some v) :
    ∃ a ∈ amounts, 0 < a ∧ v = round2 a := by
  induction amounts with
  | nil => simp [get_valid_amount] at h
  | cons a rest ih =>
    by_cases ha : a ≤ 0
    · simp [get_valid_amount, ha] at h
      obtain ⟨b, hb, hb2⟩ := ih h
      exact ⟨b, by simp [hb], hb2⟩
    · simp [get_valid_amount, ha] at h
      exact ⟨a, by simp, by linarith, h.symm⟩

theorem pick_category_some {choices : List String} {lab : String}
    (h : pick_category choices = some lab) : lab ∈ categories.map Prod.snd := by
  induction choices with
  | nil => simp [pick_category] at h
  | cons c rest ih =>
    unfold pick_category at h
    cases hc : getVal? c categories with
    | none => rw [hc] at h; exact ih h
    | some l =>
      rw [hc] at h
      cases h
      exact getVal?_mem_values hc

/-! ## C1 -/

/-- C1 counterexample: the raw amount `0.001` is positive, so
`get_valid_amount` accepts it, but `round(0.001, 2) = 0`; `add_expense`
then inserts a record with `amount = 0`, which is not strictly positive —
a record with amount ≤ 0 does appear in the collection. -/
theorem c1_counterexample :
    ((init_tracker .missing).bind
        (fun t0 => add_expense t0 [1/1000] "coffee" "2024-01-05" ["1"])).map
        (fun t => t.expenses.map (·.amount)) = some [0] ∧ ¬ (0 : ℚ) > 0 := by
  have hr : round2 (1/1000 : ℚ) = 0 := by norm_num [round2, bround]
  have hg : get_valid_amount [1/1000] = some 0 := by
    simp only [get_valid_amount, if_neg (by norm_num : ¬ (1/1000 : ℚ) ≤ 0), hr]
  refine ⟨?_, by norm_num⟩
  have hinit : init_tracker .missing = some ⟨[], .missing⟩ := rfl
  rw [hinit, Option.some_bind]
  simp only [add_expense, Option.bind_eq_bind]
  rw [hg]
  simp [pick_category, getVal?, categories, save_data]

/-- C1 (amended): `get_valid_amount` rejects every non-positive raw
amount, and every record appended by `add_expense` carries
`round(a, 2)` of some positive raw input `a` — hence an amount that is
nonnegative (but possibly zero, since validation happens before rounding)
and has at most two fraction digits — together with a category label from
the fixed table. -/
theorem c1_amended_add_validation :
    (∀ amounts : List ℚ, (∀ a ∈ amounts, a ≤ 0) → get_valid_amount amounts = none) ∧
    (∀ (t : ExpenseTracker) (amounts : List ℚ) (description date : String)
        (catChoices : List String) (t' : ExpenseTracker),
      add_expense t amounts description date catChoices = some t' →
      ∃ a lab, a ∈ amounts ∧ 0 < a ∧
        t'.expenses = t.expenses ++ [⟨date, round2 a, description, lab⟩] ∧
        0 ≤ round2 a ∧ two_decimal (round2 a) ∧ lab ∈ categories.map Prod.snd) := by
  constructor
  · intro amounts h
    induction amounts with
    | nil => rfl
    | cons a rest ih =>
      have ha : a ≤ 0 := h a (by simp)
      simp only [get_valid_amount, if_pos ha]
      exact ih fun b hb => h b (by simp [hb])
  · intro t amounts description date catChoices t' h
    simp only [add_expense, Option.bind_eq_bind, Option.bind_eq_some] at h
    obtain ⟨v, hv, lab, hlab, ht'⟩ := h
    obtain ⟨a, ha, hapos, hva⟩ := get_valid_amount_some hv
    refine ⟨a, lab, ha, hapos, ?_, round2_nonneg hapos.le, two_decimal_round2 a,
      pick_category_some hlab⟩
    cases ht'
    simp [save_data, hva]

/-- C1 witness: the amended statement at concrete inputs — a store built
by rejecting `-2` and accepting `5/2`. -/
theorem c1_amended_witness :
    get_valid_amount [(-2 : ℚ)] = none ∧
    (∃ a lab, a ∈ [(5/2 : ℚ)] ∧ 0 < a ∧
      (save_data { expenses := [⟨"2024-01-05", 5/2, "lunch", "Food"⟩], file := .missing }).expenses
        = ({ expenses := [], file := .missing } : ExpenseTracker).expenses
            ++ [⟨"2024-01-05", round2 a, "lunch", lab⟩] ∧
      0 ≤ round2 a ∧ two_decimal (round2 a) ∧ lab ∈ categories.map Prod.snd) :=
  ⟨c1_amended_add_validation.1 [(-2 : ℚ)] (by intro a ha; rw [List.mem_singleton] at ha; rw [ha]; norm_num),
   c1_amended_add_validation.2 { expenses := [], file := .missing } [(5/2 : ℚ)] "lunch" "2024-01-05" ["1"]
     (save_data { expenses := [⟨"2024-01-05", 5/2, "lunch", "Food"⟩], file := .missing })
     (by
       have hr : round2 (5/2 : ℚ) = 5/2 := by norm_num [round2, bround]
       have hg : get_valid_amount [(5/2 : ℚ)] = some (5/2) := by
         simp only [get_valid_amount, if_neg (by norm_num : ¬ (5/2 : ℚ) ≤ 0), hr]
       simp [add_expense, hg, pick_category, getVal?, categories])⟩

/-! ## C2 -/

theorem decode_encode_expense (e : Expense) :
    decode_expense (encode_expense e) = some e := rfl

theorem decode_dump_expenses (es : List Expense) :
    decode_expenses (dump_expenses es) = some es := by
  induction es with
  | nil => rfl
  | cons e rest ih =>
    simp only [dump_expenses, List.map_cons] at ih ⊢
    simp [decode_expenses, decode_encode_expense, ih]

/-- C2: for every tracker state, a successful `save_data` followed by a
fresh construction (`__init__` + `load_data`) on the same file succeeds
and yields the very record list that was saved — serialization then
deserialization is the identity, field for field and in order. -/
theorem c2_save_load_round_trip (t : ExpenseTracker) :
    (init_tracker (save_data t).file).map (·.expenses) = some t.expenses := by
  simp [init_tracker, save_data, load_data, decode_dump_expenses]

/-! ## C3 -/

/-- C3 counterexample: "load() never raises" is false. The source's
`except` clause catches only `(json.JSONDecodeError, IOError)`; an
existing file whose bytes are not valid UTF-8 (e.g. the single byte
`0xFF`) makes `json.load(file)` raise `UnicodeDecodeError` — a
`ValueError`, caught by neither clause — and a deeply nested JSON
document raises `RecursionError`; both propagate out of `load_data`, so
construction over such a file crashes (`FileState.undecodable`,
`load_data = none`, `init_tracker = none`). -/
theorem c3_counterexample :
    load_data ⟨[], .undecodable⟩ = none ∧ init_tracker .undecodable = none :=
  ⟨rfl, rfl⟩

/-- C3 (amended): whenever `load_data` returns (i.e. the raised exception,
if any, is one of the two caught ones), it never writes the file; a fresh
tracker over a missing file starts with the empty collection and no
warning; a file whose read raises `IOError` or `json.JSONDecodeError`
yields the warning and an empty collection whatever was in memory; but a
file whose content raises an uncaught exception (`UnicodeDecodeError` on
non-UTF-8 bytes, `RecursionError` on deep nesting) makes `load_data`
raise instead of returning. -/
theorem c3_amended_load (t : ExpenseTracker) (r : ExpenseTracker × Bool)
    (h : load_data t = some r) :
    r.1.file = t.file ∧
    ((init_tracker .missing).map (·.expenses) = some ([] : List Expense)) ∧
    (∀ es : List Expense,
      load_data ⟨es, .corrupt⟩ = some (⟨[], .corrupt⟩, true)) ∧
    (∀ es : List Expense, load_data ⟨es, .undecodable⟩ = none) := by
  refine ⟨?_, rfl, fun es => rfl, fun es => rfl⟩
  obtain ⟨es, f⟩ := t
  cases f with
  | missing => cases h; rfl
  | corrupt => cases h; rfl
  | undecodable => cases h
  | content doc => cases h; rfl

/-- C3 witness: the amended statement at a concrete returning load — a
one-record tracker over a missing file. -/
theorem c3_amended_witness :
    (⟨⟨"2024-03-01", 4, "x", "Food"⟩ :: [], FileState.missing⟩ : ExpenseTracker).file
      = FileState.missing ∧
    ((init_tracker .missing).map (·.expenses) = some ([] : List Expense)) ∧
    (∀ es : List Expense,
      load_data ⟨es, .corrupt⟩ = some (⟨[], .corrupt⟩, true)) ∧
    (∀ es : List Expense, load_data ⟨es, .undecodable⟩ = none) :=
  c3_amended_load ⟨[⟨"2024-03-01", 4, "x", "Food"⟩], .missing⟩
    (⟨[⟨"2024-03-01", 4, "x", "Food"⟩], .missing⟩, false) rfl

/-! ## C10 -/

/-- C10: `load_data` performs no validation or normalization — whatever
record list the file's JSON parses to becomes the in-memory collection
verbatim, invariant-violating records included. -/
theorem c10_load_is_raw_parse (doc : List (List (String × JVal))) (l : List Expense)
    (h : decode_expenses doc = some l) (es0 : List Expense) :
    (init_tracker (.content doc)).map (·.expenses) = some l ∧
    (load_data ⟨es0, .content doc⟩).map (fun r => r.1.expenses) = some l := by
  constructor <;> simp [init_tracker, load_data, h]

/-- C10 witness: a file whose single record has a non-positive amount, an
unparseable date and a category outside the fixed label set loads
verbatim. -/
theorem c10_witness :
    (init_tracker (.content [[("category", JVal.jstr "Snacks"), ("amount", JVal.jnum (-5)),
        ("date", JVal.jstr "not-a-date"), ("description", JVal.jstr "")]])).map (·.expenses)
      = some [⟨"not-a-date", -5, "", "Snacks"⟩] ∧
    (-5 : ℚ) ≤ 0 ∧ strptime_ymd "not-a-date" = none ∧
    "Snacks" ∉ categories.map Prod.snd :=
  ⟨(c10_load_is_raw_parse _ [⟨"not-a-date", -5, "", "Snacks"⟩] (by decide) []).1,
   by norm_num, by decide, by decide⟩

/-! ## C5 -/

/-- C5: for every 1-based index outside `[1, count]`, both `edit_expense`
and `delete_expense` leave the whole tracker state (collection and file)
unchanged and report an error — `invalidIndex` ("Invalid expense number")
when records exist, `noExpenses` ("No expenses recorded yet") when the
collection is empty. -/
theorem c5_out_of_range_no_mutation (t : ExpenseTracker) (idx1 : ℤ)
    (field newDate : String) (newAmount : ℚ) (newDescription catChoice confirm : String)
    (h : idx1 < 1 ∨ (t.expenses.length : ℤ) < idx1) :
    (edit_expense t idx1 field newDate newAmount newDescription catChoice).1 = t ∧
    ((edit_expense t idx1 field newDate newAmount newDescription catChoice).2 = .noExpenses ∨
      (edit_expense t idx1 field newDate newAmount newDescription catChoice).2 = .invalidIndex) ∧
    (delete_expense t idx1 confirm).1 = t ∧
    ((delete_expense t idx1 confirm).2 = .noExpenses ∨
      (delete_expense t idx1 confirm).2 = .invalidIndex) := by
  have hcond : ¬ (0 ≤ idx1 - 1 ∧ idx1 - 1 < (t.expenses.length : ℤ)) := by omega
  by_cases he : t.expenses = []
  · simp [edit_expense, delete_expense, he]
  · simp only [edit_expense, delete_expense, if_neg he, dif_neg hcond, if_neg hcond]
    exact ⟨trivial, Or.inr trivial, trivial, Or.inr trivial⟩

/-- C5 witness: index 5 on a one-record store. -/
theorem c5_witness :
    (edit_expense ⟨[⟨"2024-01-05", 10, "old", "Food"⟩], .missing⟩ 5 "2" "2024-05-05" 7
        "x" "1").1 = ⟨[⟨"2024-01-05", 10, "old", "Food"⟩], .missing⟩ ∧
    ((edit_expense ⟨[⟨"2024-01-05", 10, "old", "Food"⟩], .missing⟩ 5 "2" "2024-05-05" 7
        "x" "1").2 = .noExpenses ∨
      (edit_expense ⟨[⟨"2024-01-05", 10, "old", "Food"⟩], .missing⟩ 5 "2" "2024-05-05" 7
        "x" "1").2 = .invalidIndex) ∧
    (delete_expense ⟨[⟨"2024-01-05", 10, "old", "Food"⟩], .missing⟩ 5 "y").1
      = ⟨[⟨"2024-01-05", 10, "old", "Food"⟩], .missing⟩ ∧
    ((delete_expense ⟨[⟨"2024-01-05", 10, "old", "Food"⟩], .missing⟩ 5 "y").2 = .noExpenses ∨
      (delete_expense ⟨[⟨"2024-01-05", 10, "old", "Food"⟩], .missing⟩ 5 "y").2
        = .invalidIndex) :=
  c5_out_of_range_no_mutation ⟨[⟨"2024-01-05", 10, "old", "Food"⟩], .missing⟩ 5 "2"
    "2024-05-05" 7 "x" "1" "y" (Or.inr (by norm_num))

/-! ## C6 -/

/-- C6 counterexample: an in-range index with field selector "4"
(category) and the choice `"9"`, which is not a category code.  The claim
requires exactly one field to be replaced with a validated new value, but
the record afterwards is identical — no field was replaced (all supplied
new values differ from the old ones, so no replacement can hide as a
no-op) — while the operation still saves and reports success. -/
theorem c6_counterexample :
    (edit_expense ⟨[⟨"2024-01-05", 10, "old", "Food"⟩], .missing⟩ 1 "4" "2024-05-05" 3
        "newdesc" "9").1.expenses = [⟨"2024-01-05", 10, "old", "Food"⟩] ∧
    (edit_expense ⟨[⟨"2024-01-05", 10, "old", "Food"⟩], .missing⟩ 1 "4" "2024-05-05" 3
        "newdesc" "9").2 = .updated ∧
    (edit_expense ⟨[⟨"2024-01-05", 10, "old", "Food"⟩], .missing⟩ 1 "4" "2024-05-05" 3
        "newdesc" "9").1.file
      = .content (dump_expenses [⟨"2024-01-05", 10, "old", "Food"⟩]) ∧
    getVal? "9" categories = none ∧
    "2024-05-05" ≠ "2024-01-05" ∧ (3 : ℚ) ≠ 10 ∧ "newdesc" ≠ "old" := by
  refine ⟨?_, ?_, ?_, by decide, by decide, by norm_num, by decide⟩ <;>
    simp [edit_expense, str_lower, apply_edit, getVal?, categories, save_data,
      dump_expenses, encode_expense]

/-- C6 (amended): for an in-range 1-based index and field selector "1",
"2" or "3", `edit_expense` replaces exactly the selected field of the
targeted record with the supplied (already validated) new value and
persists; for selector "4" the category is replaced only when the supplied
choice is one of the fixed category codes — otherwise the record is left
completely unchanged, though the collection is still persisted and success
is reported.  All other records are untouched in every case. -/
theorem c6_amended_edit_one_field (t : ExpenseTracker) (idx1 : ℤ) (field newDate : String)
    (newAmount : ℚ) (newDescription catChoice : String)
    (h1 : 1 ≤ idx1) (h2 : idx1 ≤ (t.expenses.length : ℤ))
    (hf : field = "1" ∨ field = "2" ∨ field = "3" ∨ field = "4") :
    (edit_expense t idx1 field newDate newAmount newDescription catChoice).2 = .updated ∧
    (edit_expense t idx1 field newDate newAmount newDescription catChoice).1.file
      = .content (dump_expenses
          (edit_expense t idx1 field newDate newAmount newDescription catChoice).1.expenses) ∧
    (edit_expense t idx1 field newDate newAmount newDescription catChoice).1.expenses.length
      = t.expenses.length ∧
    (∀ j : ℕ, j ≠ (idx1 - 1).toNat →
      (edit_expense t idx1 field newDate newAmount newDescription catChoice).1.expenses[j]?
        = t.expenses[j]?) ∧
    (∃ e, t.expenses[(idx1 - 1).toNat]? = some e ∧
      (edit_expense t idx1 field newDate newAmount newDescription
          catChoice).1.expenses[(idx1 - 1).toNat]?
        = some (apply_edit e field newDate newAmount newDescription catChoice) ∧
      (field = "1" →
        apply_edit e field newDate newAmount newDescription catChoice
          = { e with date := newDate }) ∧
      (field = "2" →
        apply_edit e field newDate newAmount newDescription catChoice
          = { e with amount := newAmount }) ∧
      (field = "3" →
        apply_edit e field newDate newAmount newDescription catChoice
          = { e with description := newDescription }) ∧
      (field = "4" → ∀ lab, getVal? catChoice categories = some lab →
        apply_edit e field newDate newAmount newDescription catChoice
          = { e with category := lab }) ∧
      (field = "4" → getVal? catChoice categories = none →
        apply_edit e field newDate newAmount newDescription catChoice = e)) := by
  have he : ¬ t.expenses = [] := by
    intro h0
    rw [h0] at h2
    simp at h2
    omega
  have hcond : 0 ≤ idx1 - 1 ∧ idx1 - 1 < (t.expenses.length : ℤ) := by omega
  have hcancel : ¬ str_lower field = "cancel" := by
    rcases hf with rfl | rfl | rfl | rfl <;> decide
  have hlt : (idx1 - 1).toNat < t.expenses.length := by omega
  simp only [edit_expense, if_neg he, dif_pos hcond, if_neg hcancel]
  refine ⟨by trivial, by trivial, by simp [save_data], ?_, ?_⟩
  · intro j hj
    simp only [save_data]
    exact List.getElem?_set_ne (fun hne => hj hne.symm)
  · refine ⟨t.expenses.get ⟨(idx1 - 1).toNat, hlt⟩, by simp, ?_, ?_, ?_, ?_, ?_, ?_⟩
    · simp only [save_data]
      exact List.getElem?_set_eq_of_lt _ (by simpa using hlt)
    · rintro rfl; simp [apply_edit]
    · rintro rfl; simp [apply_edit]
    · rintro rfl; simp [apply_edit]
    · rintro rfl lab hlab; simp [apply_edit, hlab]
    · rintro rfl hlab; simp [apply_edit, hlab]

/-- C6 witness: editing the description (selector "3") of the first of
two records. -/
theorem c6_amended_witness :
    (edit_expense ⟨[⟨"2024-01-05", 10, "old", "Food"⟩, ⟨"2024-02-01", 7, "b", "Other"⟩],
        .missing⟩ 1 "3" "2024-05-05" 3 "newdesc" "2").2 = .updated ∧
    (edit_expense ⟨[⟨"2024-01-05", 10, "old", "Food"⟩, ⟨"2024-02-01", 7, "b", "Other"⟩],
        .missing⟩ 1 "3" "2024-05-05" 3 "newdesc" "2").1.file
      = .content (dump_expenses
          (edit_expense ⟨[⟨"2024-01-05", 10, "old", "Food"⟩, ⟨"2024-02-01", 7, "b", "Other"⟩],
            .missing⟩ 1 "3" "2024-05-05" 3 "newdesc" "2").1.expenses) ∧
    (edit_expense ⟨[⟨"2024-01-05", 10, "old", "Food"⟩, ⟨"2024-02-01", 7, "b", "Other"⟩],
        .missing⟩ 1 "3" "2024-05-05" 3 "newdesc" "2").1.expenses.length
      = ([⟨"2024-01-05", 10, "old", "Food"⟩, ⟨"2024-02-01", 7, "b", "Other"⟩] : List Expense).length ∧
    (∀ j : ℕ, j ≠ ((1 : ℤ) - 1).toNat →
      (edit_expense ⟨[⟨"2024-01-05", 10, "old", "Food"⟩, ⟨"2024-02-01", 7, "b", "Other"⟩],
          .missing⟩ 1 "3" "2024-05-05" 3 "newdesc" "2").1.expenses[j]?
        = ([⟨"2024-01-05", 10, "old", "Food"⟩, ⟨"2024-02-01", 7, "b", "Other"⟩] : List Expense)[j]?) ∧
    (∃ e, ([⟨"2024-01-05", 10, "old", "Food"⟩, ⟨"2024-02-01", 7, "b", "Other"⟩] : List Expense)[((1 : ℤ) - 1).toNat]? = some e ∧
      (edit_expense ⟨[⟨"2024-01-05", 10, "old", "Food"⟩, ⟨"2024-02-01", 7, "b", "Other"⟩],
          .missing⟩ 1 "3" "2024-05-05" 3 "newdesc" "2").1.expenses[((1 : ℤ) - 1).toNat]?
        = some (apply_edit e "3" "2024-05-05" 3 "newdesc" "2") ∧
      ("3" = "1" → apply_edit e "3" "2024-05-05" 3 "newdesc" "2" = { e with date := "2024-05-05" }) ∧
      ("3" = "2" → apply_edit e "3" "2024-05-05" 3 "newdesc" "2" = { e with amount := 3 }) ∧
      ("3" = "3" → apply_edit e "3" "2024-05-05" 3 "newdesc" "2" = { e with description := "newdesc" }) ∧
      ("3" = "4" → ∀ lab, getVal? "2" categories = some lab →
        apply_edit e "3" "2024-05-05" 3 "newdesc" "2" = { e with category := lab }) ∧
      ("3" = "4" → getVal? "2" categories = none →
        apply_edit e "3" "2024-05-05" 3 "newdesc" "2" = e)) :=
  c6_amended_edit_one_field
    ⟨[⟨"2024-01-05", 10, "old", "Food"⟩, ⟨"2024-02-01", 7, "b", "Other"⟩], .missing⟩
    1 "3" "2024-05-05" 3 "newdesc" "2" (by norm_num) (by norm_num) (by decide)

/-! ## Grouping machinery: `defaultdict` accumulation -/

/-- Total amount carried by the pairs with key `k`. -/
def sum_for (k : String) (ps : List (String × ℚ)) : ℚ :=
  ((ps.filter fun p => decide (p.1 = k)).map (·.2)).sum

theorem sum_for_nil (k : String) : sum_for k [] = 0 := rfl

theorem sum_for_cons (k : String) (p : String × ℚ) (ps : List (String × ℚ)) :
    sum_for k (p :: ps) = (if p.1 = k then p.2 else 0) + sum_for k ps := by
  by_cases h : p.1 = k <;> simp [sum_for, List.filter_cons, h]

theorem getVal?_add_to_group_self (k : String) (v : ℚ) (l : List (String × ℚ)) :
    getVal? k (add_to_group k v l) = some ((getVal? k l).getD 0 + v) := by
  induction l with
  | nil => simp [add_to_group, getVal?]
  | cons p rest ih =>
    obtain ⟨k', w⟩ := p
    by_cases h : k' = k
    · subst h
      simp [add_to_group, getVal?]
    · simp [add_to_group, getVal?, h, ih]

theorem getVal?_add_to_group_ne (k k' : String) (h : k' ≠ k) (v : ℚ)
    (l : List (String × ℚ)) :
    getVal? k' (add_to_group k v l) = getVal? k' l := by
  have hk : ¬ k = k' := fun hh => h hh.symm
  induction l with
  | nil => simp [add_to_group, getVal?, hk]
  | cons p rest ih =>
    obtain ⟨k'', w⟩ := p
    by_cases h2 : k'' = k
    · subst h2
      simp [add_to_group, getVal?, hk]
    · simp [add_to_group, getVal?, h2, ih]

theorem map_fst_add_to_group (k : String) (v : ℚ) (l : List (String × ℚ)) :
    (add_to_group k v l).map Prod.fst
      = if k ∈ l.map Prod.fst then l.map Prod.fst else l.map Prod.fst ++ [k] := by
  induction l with
  | nil => simp [add_to_group]
  | cons p rest ih =>
    obtain ⟨k', w⟩ := p
    by_cases h : k' = k
    · subst h
      simp [add_to_group]
    · have hk : ¬ k = k' := fun hh => h hh.symm
      by_cases hm : k ∈ rest.map Prod.fst <;>
        simp [add_to_group, h, hm, ih, hk]

theorem mem_map_fst_add_to_group (k k' : String) (v : ℚ) (l : List (String × ℚ)) :
    k' ∈ (add_to_group k v l).map Prod.fst ↔ k' ∈ l.map Prod.fst ∨ k' = k := by
  rw [map_fst_add_to_group]
  split_ifs with h
  · constructor
    · exact Or.inl
    · rintro (hm | rfl)
      · exact hm
      · exact h
  · simp

theorem nodup_map_fst_add_to_group (k : String) (v : ℚ) (l : List (String × ℚ))
    (h : (l.map Prod.fst).Nodup) : ((add_to_group k v l).map Prod.fst).Nodup := by
  rw [map_fst_add_to_group]
  split_ifs with hm
  · exact h
  · simp [List.nodup_append, h, hm]

theorem sum_values_add_to_group (k : String) (v : ℚ) (l : List (String × ℚ)) :
    ((add_to_group k v l).map Prod.snd).sum = (l.map Prod.snd).sum + v := by
  induction l with
  | nil => simp [add_to_group]
  | cons p rest ih =>
    obtain ⟨k', w⟩ := p
    by_cases h : k' = k
    · subst h
      simp [add_to_group]
      ring
    · simp [add_to_group, h, ih]
      ring

theorem group_foldl_getVal? (ps : List (String × ℚ)) :
    ∀ (acc : List (String × ℚ)) (k : String),
      getVal? k (ps.foldl (fun acc kv => add_to_group kv.1 kv.2 acc) acc)
        = if k ∈ acc.map Prod.fst ∨ k ∈ ps.map Prod.fst
          then some ((getVal? k acc).getD 0 + sum_for k ps) else none := by
  induction ps with
  | nil =>
    intro acc k
    cases hv : getVal? k acc with
    | none =>
      have : k ∉ acc.map Prod.fst := (getVal?_eq_none_iff k acc).mp hv
      simp [this, hv]
    | some w =>
      have : ¬ getVal? k acc = none := by simp [hv]
      have hm : k ∈ acc.map Prod.fst := by
        by_contra hm
        exact this ((getVal?_eq_none_iff k acc).mpr hm)
      simp [hm, hv, sum_for_nil]
  | cons p ps ih =>
    intro acc k
    obtain ⟨k₁, v₁⟩ := p
    rw [List.foldl_cons]
    rw [ih (add_to_group k₁ v₁ acc) k]
    rw [sum_for_cons]
    by_cases hk : k = k₁
    · subst hk
      rw [getVal?_add_to_group_self]
      have hmem : k ∈ (add_to_group k v₁ acc).map Prod.fst := by
        rw [mem_map_fst_add_to_group]
        exact Or.inr rfl
      simp only [hmem, true_or, if_pos, List.map_cons, List.mem_cons, true_or, or_true,
        Option.getD_some]
      rw [add_assoc]
    · rw [getVal?_add_to_group_ne k₁ k hk v₁]
      have hne : ¬ (k₁ = k) := fun hh => hk hh.symm
      simp only [mem_map_fst_add_to_group, List.map_cons, List.mem_cons, hk, or_false,
        false_or, hne, if_neg hne, if_false, zero_add, or_assoc]

theorem group_totals_getVal? (ps : List (String × ℚ)) (k : String) :
    getVal? k (group_totals ps)
      = if k ∈ ps.map Prod.fst then some (sum_for k ps) else none := by
  rw [group_totals, group_foldl_getVal? ps [] k]
  by_cases hm : k ∈ ps.map Prod.fst
  · rw [if_pos (Or.inr hm), if_pos hm]
    simp [getVal?]
  · have hn : ¬ (k ∈ (([] : List (String × ℚ)).map Prod.fst) ∨ k ∈ ps.map Prod.fst) := by
      simp [hm]
    rw [if_neg hn, if_neg hm]

theorem mem_map_fst_group_totals (ps : List (String × ℚ)) (k : String) :
    k ∈ (group_totals ps).map Prod.fst ↔ k ∈ ps.map Prod.fst := by
  rw [← not_iff_not, ← getVal?_eq_none_iff, group_totals_getVal?]
  split_ifs with h <;> simp [h]

theorem nodup_map_fst_group_totals (ps : List (String × ℚ)) :
    ((group_totals ps).map Prod.fst).Nodup := by
  rw [group_totals]
  have h : ∀ (acc : List (String × ℚ)), (acc.map Prod.fst).Nodup →
      ((ps.foldl (fun acc kv => add_to_group kv.1 kv.2 acc) acc).map Prod.fst).Nodup := by
    induction ps with
    | nil => exact fun acc h => h
    | cons p ps ih =>
      intro acc hacc
      rw [List.foldl_cons]
      exact ih _ (nodup_map_fst_add_to_group _ _ _ hacc)
  exact h [] (by simp)

theorem sum_values_group_totals (ps : List (String × ℚ)) :
    ((group_totals ps).map Prod.snd).sum = (ps.map Prod.snd).sum := by
  rw [group_totals]
  have h : ∀ (acc : List (String × ℚ)),
      ((ps.foldl (fun acc kv => add_to_group kv.1 kv.2 acc) acc).map Prod.snd).sum
        = (acc.map Prod.snd).sum + (ps.map Prod.snd).sum := by
    induction ps with
    | nil => simp
    | cons p ps ih =>
      intro acc
      rw [List.foldl_cons, ih, sum_values_add_to_group]
      simp
      ring
  simpa using h []

theorem mem_iff_getVal? {l : List (String × ℚ)} (h : (l.map Prod.fst).Nodup)
    (k : String) (v : ℚ) : (k, v) ∈ l ↔ getVal? k l = some v := by
  induction l with
  | nil => simp [getVal?]
  | cons p rest ih =>
    obtain ⟨k', w⟩ := p
    simp only [List.map_cons, List.nodup_cons] at h
    by_cases hk : k' = k
    · subst hk
      simp only [getVal?, if_pos rfl, List.mem_cons]
      constructor
      · rintro (hp | hp)
        · cases hp
          rfl
        · exact absurd (List.mem_map_of_mem Prod.fst hp) h.1
      · rintro hp
        cases hp
        exact Or.inl rfl
    · simp only [getVal?, if_neg hk, List.mem_cons]
      rw [← ih h.2]
      constructor
      · rintro (hp | hp)
        · cases hp
          exact absurd rfl hk
        · exact hp
      · exact Or.inr

theorem mem_group_totals_iff (ps : List (String × ℚ)) (k : String) (v : ℚ) :
    (k, v) ∈ group_totals ps ↔ k ∈ ps.map Prod.fst ∧ v = sum_for k ps := by
  rw [mem_iff_getVal? (nodup_map_fst_group_totals ps), group_totals_getVal?]
  split_ifs with h <;> simp [h, eq_comm]

/-! ## C4 -/

/-- C4 counterexample: a reachable store holding one record with amount 0
(insertable through `add_expense`, see the C1 analysis, or through
`load_data`).  The collection is nonempty, so the emptiness guard does not
fire, the grand total is 0, and the per-row division `(amount / total)` is
executed with a zero divisor — `ZeroDivisionError` in Python, the
`divisionByZero` outcome here. -/
theorem c4_counterexample :
    category_summary [⟨"2024-01-01", 0, "snack", "Food"⟩] = .divisionByZero ∧
    ([⟨"2024-01-01", 0, "snack", "Food"⟩] : List Expense) ≠ [] ∧
    total_amount [⟨"2024-01-01", 0, "snack", "Food"⟩] = 0 := by
  refine ⟨?_, by simp, by simp [total_amount]⟩
  simp [category_summary, total_amount]

/-- C4 (amended): `category_summary` short-circuits exactly when the
collection is empty; whenever at least one record exists the division by
the grand total is executed, with a zero divisor exactly when the amounts
sum to zero (possible for a nonempty collection); when the total is
nonzero the operation completes with its rows. -/
theorem c4_amended_guard (es : List Expense) :
    (category_summary es = .noExpenses ↔ es = []) ∧
    (category_summary es = .divisionByZero ↔ es ≠ [] ∧ total_amount es = 0) ∧
    (es ≠ [] → total_amount es ≠ 0 → ∃ rows, category_summary es = .rows rows) := by
  by_cases h1 : es = [] <;> by_cases h2 : total_amount es = 0 <;>
    simp [category_summary, h1, h2]

/-- C4 witness: the amended statement at a nonempty store with a nonzero
total. -/
theorem c4_amended_witness :
    ¬ category_summary [⟨"2024-01-01", 2, "tea", "Food"⟩] = .noExpenses ∧
    (∃ rows, category_summary [⟨"2024-01-01", 2, "tea", "Food"⟩] = .rows rows) :=
  ⟨fun h => by simpa using (c4_amended_guard [⟨"2024-01-01", 2, "tea", "Food"⟩]).1.mp h,
   (c4_amended_guard [⟨"2024-01-01", 2, "tea", "Food"⟩]).2.2 (by simp)
     (by norm_num [total_amount])⟩

/-! ## C8 -/

instance : IsTotal (String × ℚ) (fun a b => b.2 ≤ a.2) := ⟨fun a b => le_total b.2 a.2⟩

instance : IsTrans (String × ℚ) (fun a b => b.2 ≤ a.2) := ⟨fun _ _ _ h1 h2 => le_trans h2 h1⟩

theorem sum_map_mul_const (l : List (String × ℚ)) (c : ℚ) :
    (l.map fun p => p.2 * c).sum = (l.map Prod.snd).sum * c := by
  induction l with
  | nil => simp
  | cons p rest ih =>
    simp [ih]
    ring

/-- C8 counterexample: two records (total `5 + (-5) = 0`, reachable by
loading such a file).  At least one record exists, but instead of
returning rows of percentages summing to 100, the operation divides by
zero (`ZeroDivisionError` in Python). -/
theorem c8_counterexample :
    category_summary [⟨"2024-01-01", 5, "a", "Food"⟩, ⟨"2024-01-02", -5, "b", "Other"⟩]
      = .divisionByZero ∧
    ([⟨"2024-01-01", 5, "a", "Food"⟩, ⟨"2024-01-02", -5, "b", "Other"⟩] : List Expense)
      ≠ [] := by
  refine ⟨?_, by simp⟩
  have hT : total_amount [⟨"2024-01-01", 5, "a", "Food"⟩, ⟨"2024-01-02", -5, "b", "Other"⟩]
      = 0 := by
    norm_num [total_amount]
  simp [category_summary, hT]

/-- C8 (amended): when at least one record exists and the grand total is
nonzero (in particular whenever all amounts are positive),
`category_summary` returns rows sorted descending by summed amount, each
row carrying its category's summed amount and the percentage
`amount / total * 100`; every stored category appears, and the
percentages sum to exactly 100. -/
theorem c8_amended_category_summary (es : List Expense) (h1 : es ≠ [])
    (h2 : total_amount es ≠ 0) :
    ∃ rows, category_summary es = .rows rows ∧
      rows.Pairwise (fun a b => b.2.1 ≤ a.2.1) ∧
      (∀ r ∈ rows, r.2.1 = sum_for r.1 (es.map fun e => (e.category, e.amount)) ∧
        r.2.2 = r.2.1 / total_amount es * 100) ∧
      (∀ c ∈ es.map (·.category), ∃ r ∈ rows, r.1 = c) ∧
      (rows.map fun r => r.2.2).sum = 100 := by
  refine ⟨(List.insertionSort (fun a b => b.2 ≤ a.2)
      (group_totals (es.map fun e => (e.category, e.amount)))).map
        fun p => (p.1, p.2, p.2 / total_amount es * 100), ?_, ?_, ?_, ?_, ?_⟩
  · simp only [category_summary, if_neg h1, if_neg h2]
  · have hs := List.sorted_insertionSort (fun a b : String × ℚ => b.2 ≤ a.2)
      (group_totals (es.map fun e => (e.category, e.amount)))
    rw [List.pairwise_map]
    exact hs
  · rintro r hr
    rw [List.mem_map] at hr
    obtain ⟨p, hp, rfl⟩ := hr
    rw [List.mem_insertionSort] at hp
    have hp2 : (p.1, p.2) ∈ group_totals (es.map fun e => (e.category, e.amount)) := by
      simpa using hp
    rw [mem_group_totals_iff] at hp2
    exact ⟨hp2.2, rfl⟩
  · intro c hc
    have hc2 : c ∈ (es.map fun e => (e.category, e.amount)).map Prod.fst := by
      simpa [List.map_map, Function.comp] using hc
    have hmem : (c, sum_for c (es.map fun e => (e.category, e.amount)))
        ∈ group_totals (es.map fun e => (e.category, e.amount)) :=
      (mem_group_totals_iff _ c _).mpr ⟨hc2, rfl⟩
    exact ⟨_, List.mem_map_of_mem _ ((List.mem_insertionSort _).mpr hmem), rfl⟩
  · rw [List.map_map]
    have hfun : ((fun r : String × ℚ × ℚ => r.2.2) ∘
        fun p : String × ℚ => (p.1, p.2, p.2 / total_amount es * 100))
        = fun p : String × ℚ => p.2 * (100 / total_amount es) := by
      funext p
      simp only [Function.comp]
      ring
    rw [hfun, sum_map_mul_const]
    have hperm : List.Perm
        ((List.insertionSort (fun a b : String × ℚ => b.2 ≤ a.2)
          (group_totals (es.map fun e => (e.category, e.amount)))).map Prod.snd)
        ((group_totals (es.map fun e => (e.category, e.amount))).map Prod.snd) :=
      (List.perm_insertionSort _ _).map Prod.snd
    rw [hperm.sum_eq, sum_values_group_totals]
    have hsum : ((es.map fun e => (e.category, e.amount)).map Prod.snd).sum
        = total_amount es := by
      simp only [List.map_map, total_amount]
      rfl
    rw [hsum]
    field_simp

/-- C8 witness: the amended statement at a two-record store with
categories Food and Housing. -/
theorem c8_amended_witness :
    ∃ rows, category_summary [⟨"2024-01-05", 10, "", "Food"⟩, ⟨"2024-01-06", 30, "", "Housing"⟩]
        = .rows rows ∧
      rows.Pairwise (fun a b => b.2.1 ≤ a.2.1) ∧
      (∀ r ∈ rows, r.2.1 = sum_for r.1
          (([⟨"2024-01-05", 10, "", "Food"⟩, ⟨"2024-01-06", 30, "", "Housing"⟩] : List Expense).map
            fun e => (e.category, e.amount)) ∧
        r.2.2 = r.2.1 / total_amount
          [⟨"2024-01-05", 10, "", "Food"⟩, ⟨"2024-01-06", 30, "", "Housing"⟩] * 100) ∧
      (∀ c ∈ ([⟨"2024-01-05", 10, "", "Food"⟩, ⟨"2024-01-06", 30, "", "Housing"⟩] : List Expense).map
          (·.category), ∃ r ∈ rows, r.1 = c) ∧
      (rows.map fun r => r.2.2).sum = 100 :=
  c8_amended_category_summary
    [⟨"2024-01-05", 10, "", "Food"⟩, ⟨"2024-01-06", 30, "", "Housing"⟩]
    (by simp) (by norm_num [total_amount])

/-! ## C7: the monthly grouping -/

instance : IsTotal (String × ℚ) (fun a b => a.1 ≤ b.1) := ⟨fun a b => le_total a.1 b.1⟩

instance : IsTrans (String × ℚ) (fun a b => a.1 ≤ b.1) := ⟨fun _ _ _ h1 h2 => le_trans h1 h2⟩

instance : IsAntisymm (String × ℚ) (fun a b => a.1 < b.1) :=
  ⟨fun _ _ h1 h2 => absurd h2 (lt_asymm h1)⟩

/-- The grouping key `monthly_summary` computes for one record:
`strftime("%Y-%m")` of the parsed date. -/
def month_key_of (e : Expense) : Option String :=
  (strptime_ymd e.date).map fun ymd => month_key ymd.1 ymd.2.1

/-- What the spec describes declaratively: the distinct year-month keys in
ascending order, each with the sum of the amounts of the records carrying
it. -/
def monthly_declarative (es : List Expense) : List (String × ℚ) :=
  (List.insertionSort (· ≤ ·) (es.filterMap month_key_of).dedup).map
    fun k => (k, ((es.filter fun e => decide (month_key_of e = some k)).map (·.amount)).sum)

theorem month_pairs_map_fst {es : List Expense} {ps : List (String × ℚ)}
    (h : month_pairs es = some ps) : ps.map Prod.fst = es.filterMap month_key_of := by
  induction es generalizing ps with
  | nil =>
    simp only [month_pairs, Option.some.injEq] at h
    subst h
    rfl
  | cons e es ih =>
    simp only [month_pairs] at h
    cases hs : strptime_ymd e.date with
    | none => rw [hs] at h; cases h
    | some ymd =>
      rw [hs] at h
      cases hps : month_pairs es with
      | none => rw [hps] at h; cases h
      | some ps' =>
        rw [hps] at h
        obtain ⟨y, m, d⟩ := ymd
        simp only [Option.map_some', Option.some.injEq] at h
        subst h
        simp [List.filterMap_cons, month_key_of, hs, ih hps]

theorem month_pairs_sum_for {es : List Expense} {ps : List (String × ℚ)}
    (h : month_pairs es = some ps) (k : String) :
    sum_for k ps
      = ((es.filter fun e => decide (month_key_of e = some k)).map (·.amount)).sum := by
  induction es generalizing ps with
  | nil =>
    simp only [month_pairs, Option.some.injEq] at h
    subst h
    simp [sum_for]
  | cons e es ih =>
    simp only [month_pairs] at h
    cases hs : strptime_ymd e.date with
    | none => rw [hs] at h; cases h
    | some ymd =>
      rw [hs] at h
      cases hps : month_pairs es with
      | none => rw [hps] at h; cases h
      | some ps' =>
        rw [hps] at h
        obtain ⟨y, m, d⟩ := ymd
        simp only [Option.map_some', Option.some.injEq] at h
        subst h
        rw [sum_for_cons]
        by_cases hk : month_key y m = k
        · simp [List.filter_cons, month_key_of, hs, hk, ih hps]
        · simp [List.filter_cons, month_key_of, hs, hk, ih hps]

theorem monthly_sort_eq_declarative {es : List Expense} {ps : List (String × ℚ)}
    (h : month_pairs es = some ps) :
    List.insertionSort (fun a b => a.1 ≤ b.1) (group_totals ps)
      = monthly_declarative es := by
  have hfst := month_pairs_map_fst h
  have hLperm : List.Perm
      (List.insertionSort (fun a b : String × ℚ => a.1 ≤ b.1) (group_totals ps))
      (group_totals ps) := List.perm_insertionSort _ _
  have hLnodupfst :
      ((List.insertionSort (fun a b : String × ℚ => a.1 ≤ b.1)
        (group_totals ps)).map Prod.fst).Nodup :=
    ((hLperm.map Prod.fst).nodup_iff).mpr (nodup_map_fst_group_totals ps)
  have hLsorted := List.sorted_insertionSort (fun a b : String × ℚ => a.1 ≤ b.1)
    (group_totals ps)
  have hLlt : (List.insertionSort (fun a b : String × ℚ => a.1 ≤ b.1)
      (group_totals ps)).Pairwise (fun a b => a.1 < b.1) := by
    have hne := List.pairwise_map.mp hLnodupfst
    exact (hLsorted.and hne).imp fun hab => lt_of_le_of_ne hab.1 hab.2
  have hknodup : (List.insertionSort (· ≤ ·) (es.filterMap month_key_of).dedup).Nodup :=
    ((List.perm_insertionSort (· ≤ ·) (es.filterMap month_key_of).dedup).nodup_iff).mpr
      (List.nodup_dedup _)
  have hksorted := List.sorted_insertionSort (· ≤ ·) (es.filterMap month_key_of).dedup
  have hklt : (List.insertionSort (· ≤ ·) (es.filterMap month_key_of).dedup).Pairwise
      (· < ·) :=
    (hksorted.and hknodup).imp fun hab => lt_of_le_of_ne hab.1 hab.2
  have hRlt : (monthly_declarative es).Pairwise (fun a b => a.1 < b.1) := by
    rw [monthly_declarative, List.pairwise_map]
    exact hklt
  have hmemL : ∀ p : String × ℚ,
      p ∈ List.insertionSort (fun a b : String × ℚ => a.1 ≤ b.1) (group_totals ps)
        ↔ p.1 ∈ ps.map Prod.fst ∧ p.2 = sum_for p.1 ps := by
    rintro ⟨k, v⟩
    rw [hLperm.mem_iff]
    exact mem_group_totals_iff ps k v
  have hmemR : ∀ p : String × ℚ,
      p ∈ monthly_declarative es ↔ p.1 ∈ ps.map Prod.fst ∧ p.2 = sum_for p.1 ps := by
    rintro ⟨k, v⟩
    rw [monthly_declarative, List.mem_map]
    constructor
    · rintro ⟨k', hk', heq⟩
      have hk1 : k' = k := congrArg Prod.fst heq
      subst hk1
      have hv1 : ((es.filter fun e => decide (month_key_of e = some k')).map (·.amount)).sum
          = v := congrArg Prod.snd heq
      have hk2 : k' ∈ es.filterMap month_key_of :=
        List.mem_dedup.mp ((List.mem_insertionSort _).mp hk')
      rw [← hfst] at hk2
      refine ⟨hk2, ?_⟩
      rw [← hv1]
      exact (month_pairs_sum_for h k').symm
    · rintro ⟨hk, hv⟩
      refine ⟨k, ?_, ?_⟩
      · exact (List.mem_insertionSort _).mpr (List.mem_dedup.mpr (hfst ▸ hk))
      · rw [← month_pairs_sum_for h k, ← hv]
  have hLnodup : (List.insertionSort (fun a b : String × ℚ => a.1 ≤ b.1)
      (group_totals ps)).Nodup := List.Nodup.of_map Prod.fst hLnodupfst
  have hRnodup : (monthly_declarative es).Nodup := by
    rw [monthly_declarative]
    exact hknodup.map fun a b hab => congrArg Prod.fst hab
  have hperm : List.Perm
      (List.insertionSort (fun a b : String × ℚ => a.1 ≤ b.1) (group_totals ps))
      (monthly_declarative es) :=
    (List.perm_ext_iff_of_nodup hLnodup hRnodup).mpr
      fun p => (hmemL p).trans (hmemR p).symm
  exact List.eq_of_perm_of_sorted hperm hLlt hRlt

/-- A zero-padded ISO date string: exactly `DDDD-DD-DD` with digits `D`.
(`strptime` also accepts non-padded forms such as `"2024-1-5"`; this
predicate singles out the padded ones the spec's data model describes.) -/
def is_padded_date (s : String) : Bool :=
  match s.toList with
  | [y1, y2, y3, y4, h1, m1, m2, h2, d1, d2] =>
    y1.isDigit && y2.isDigit && y3.isDigit && y4.isDigit &&
    decide (h1 = '-') && decide (h2 = '-') &&
    m1.isDigit && m2.isDigit && d1.isDigit && d2.isDigit
  | _ => false

theorem char_digit_toNat {c : Char} (h : c.isDigit = true) :
    48 ≤ c.toNat ∧ c.toNat ≤ 57 := by
  simp only [Char.isDigit, Bool.and_eq_true, decide_eq_true_eq, ge_iff_le] at h
  obtain ⟨h1, h2⟩ := h
  rw [UInt32.le_def, BitVec.le_def] at h1 h2
  exact ⟨h1, h2⟩

theorem digit_ne_dash {c : Char} (h : c.isDigit = true) : ¬ c = '-' := by
  intro hc
  subst hc
  exact absurd h (by decide)

/-- On a zero-padded ISO date, the `strftime("%Y-%m")` key equals the
first seven characters of the stored string. -/
theorem month_key_eq_take7 (s : String) (y m d : ℕ)
    (hp : strptime_ymd s = some (y, m, d)) (hpad : is_padded_date s = true) :
    month_key y m = s.take 7 := by
  unfold is_padded_date at hpad
  split at hpad
  case h_2 => exact absurd hpad (by simp)
  case h_1 y1 y2 y3 y4 h1 m1 m2 h2 d1 d2 heq =>
    simp only [Bool.and_eq_true, decide_eq_true_eq] at hpad
    obtain ⟨⟨⟨⟨⟨⟨⟨⟨⟨hy1, hy2⟩, hy3⟩, hy4⟩, hh1⟩, hh2⟩, hm1⟩, hm2⟩, hd1⟩, hd2⟩ := hpad
    subst hh1
    subst hh2
    unfold strptime_ymd at hp
    rw [heq] at hp
    simp only [split_dashes, if_neg (digit_ne_dash hy1), if_neg (digit_ne_dash hy2),
      if_neg (digit_ne_dash hy3), if_neg (digit_ne_dash hy4),
      if_neg (digit_ne_dash hm1), if_neg (digit_ne_dash hm2),
      if_neg (digit_ne_dash hd1), if_neg (digit_ne_dash hd2), if_pos rfl] at hp
    simp only [year_field, month_field, day_field, List.length_cons, List.length_nil,
      List.all_cons, List.all_nil, hy1, hy2, hy3, hy4, hm1, hm2, hd1, hd2,
      Bool.and_true, Bool.and_self, if_pos, Option.bind_eq_bind] at hp
    norm_num at hp
    obtain ⟨hb1, hb1'⟩ := char_digit_toNat hy1
    obtain ⟨hb2, hb2'⟩ := char_digit_toNat hy2
    obtain ⟨hb3, hb3'⟩ := char_digit_toNat hy3
    obtain ⟨hb4, hb4'⟩ := char_digit_toNat hy4
    obtain ⟨hc1, hc1'⟩ := char_digit_toNat hm1
    obtain ⟨hc2, hc2'⟩ := char_digit_toNat hm2
    split at hp
    case isTrue hmg =>
      split at hp
      case isTrue hdg =>
        simp only [Option.some_bind] at hp
        split at hp
        case isTrue hyg =>
          rw [Option.some.injEq] at hp
          obtain ⟨rfl, rfl, rfl⟩ : digits_to_nat [y1, y2, y3, y4] = y ∧
              digits_to_nat [m1, m2] = m ∧ digits_to_nat [d1, d2] = d := by
            exact ⟨congrArg (fun p => p.1) hp, congrArg (fun p => p.2.1) hp,
              congrArg (fun p => p.2.2) hp⟩
          rw [String.take_eq]
          rw [show s.1 = s.toList from rfl, heq]
          have e1 : Char.ofNat (48 + digits_to_nat [y1, y2, y3, y4] / 1000 % 10) = y1 := by
            have hv : 48 + digits_to_nat [y1, y2, y3, y4] / 1000 % 10 = y1.toNat := by
              simp only [digits_to_nat, List.foldl_cons, List.foldl_nil]
              omega
            rw [hv, Char.ofNat_toNat]
          have e2 : Char.ofNat (48 + digits_to_nat [y1, y2, y3, y4] / 100 % 10) = y2 := by
            have hv : 48 + digits_to_nat [y1, y2, y3, y4] / 100 % 10 = y2.toNat := by
              simp only [digits_to_nat, List.foldl_cons, List.foldl_nil]
              omega
            rw [hv, Char.ofNat_toNat]
          have e3 : Char.ofNat (48 + digits_to_nat [y1, y2, y3, y4] / 10 % 10) = y3 := by
            have hv : 48 + digits_to_nat [y1, y2, y3, y4] / 10 % 10 = y3.toNat := by
              simp only [digits_to_nat, List.foldl_cons, List.foldl_nil]
              omega
            rw [hv, Char.ofNat_toNat]
          have e4 : Char.ofNat (48 + digits_to_nat [y1, y2, y3, y4] % 10) = y4 := by
            have hv : 48 + digits_to_nat [y1, y2, y3, y4] % 10 = y4.toNat := by
              simp only [digits_to_nat, List.foldl_cons, List.foldl_nil]
              omega
            rw [hv, Char.ofNat_toNat]
          have f1 : Char.ofNat (48 + digits_to_nat [m1, m2] / 10 % 10) = m1 := by
            have hv : 48 + digits_to_nat [m1, m2] / 10 % 10 = m1.toNat := by
              simp only [digits_to_nat, List.foldl_cons, List.foldl_nil]
              omega
            rw [hv, Char.ofNat_toNat]
          have f2 : Char.ofNat (48 + digits_to_nat [m1, m2] % 10) = m2 := by
            have hv : 48 + digits_to_nat [m1, m2] % 10 = m2.toNat := by
              simp only [digits_to_nat, List.foldl_cons, List.foldl_nil]
              omega
            rw [hv, Char.ofNat_toNat]
          show pad4 (digits_to_nat [y1, y2, y3, y4]) ++ "-" ++ pad2 (digits_to_nat [m1, m2])
            = _
          rw [pad4, pad2, e1, e2, e3, e4, f1, f2]
          rfl
        case isFalse => exact absurd hp (by simp)
      case isFalse => exact absurd hp (by simp)
    case isFalse => exact absurd hp (by simp)

/-- C7 counterexample: `strptime("%Y-%m-%d")` accepts the non-zero-padded
date `"2024-1-05"` (its month regex is `1[0-2]|0[1-9]|[1-9]`), so this
record is addable through `get_valid_date`; `monthly_summary` groups it
under `strftime("%Y-%m") = "2024-01"` together with `"2024-01-20"`,
producing the single row `("2024-01", 15)` — but the record's first seven
characters are `"2024-1-"` ≠ `"2024-01"`, so the code does not group by
the first seven characters of the stored date string. -/
theorem c7_counterexample :
    monthly_summary [⟨"2024-1-05", 10, "", "Food"⟩, ⟨"2024-01-20", 5, "", "Food"⟩]
      = .rows [("2024-01", 15)] ∧
    ("2024-1-05" : String).take 7 = "2024-1-" ∧
    ("2024-1-" : String) ≠ "2024-01" := by
  refine ⟨?_, by decide, by decide⟩
  have hps : month_pairs [⟨"2024-1-05", 10, "", "Food"⟩, ⟨"2024-01-20", 5, "", "Food"⟩]
      = some [("2024-01", 10), ("2024-01", 5)] := by decide
  have hgt : group_totals [("2024-01", (10 : ℚ)), ("2024-01", 5)] = [("2024-01", 15)] := by
    simp [group_totals, add_to_group]
    norm_num
  simp only [monthly_summary, hps, hgt]
  norm_num [List.insertionSort, List.orderedInsert]
  exact fun h => absurd h (by simp)

/-- C7 (amended): when every stored date parses, `monthly_summary` groups
the records by the zero-padded year-month `strftime("%Y-%m")` of the
parsed date, sums the amounts per group, and returns the groups sorted
ascending by key (`monthly_declarative`); on zero-padded date strings —
the spec's data model — that key coincides with the first seven characters
of the stored string, and the spec's worked example holds. -/
theorem c7_amended_monthly_summary :
    (∀ (es : List Expense) (ps : List (String × ℚ)), es ≠ [] → month_pairs es = some ps →
      monthly_summary es = .rows (monthly_declarative es)) ∧
    monthly_summary [⟨"2024-01-05", 10, "", "Food"⟩, ⟨"2024-01-20", 5, "", "Food"⟩,
        ⟨"2024-02-01", 7, "", "Other"⟩]
      = .rows [("2024-01", 15), ("2024-02", 7)] ∧
    (∀ s y m d, strptime_ymd s = some (y, m, d) → is_padded_date s = true →
      month_key y m = s.take 7) := by
  refine ⟨?_, ?_, month_key_eq_take7⟩
  · intro es ps hne hps
    simp only [monthly_summary, if_neg hne, hps]
    rw [monthly_sort_eq_declarative hps]
  · have hps : month_pairs [⟨"2024-01-05", 10, "", "Food"⟩, ⟨"2024-01-20", 5, "", "Food"⟩,
        ⟨"2024-02-01", 7, "", "Other"⟩]
        = some [("2024-01", 10), ("2024-01", 5), ("2024-02", 7)] := by decide
    have hgt : group_totals [("2024-01", (10 : ℚ)), ("2024-01", 5), ("2024-02", 7)]
        = [("2024-01", 15), ("2024-02", 7)] := by
      simp [group_totals, add_to_group]
      norm_num
    simp only [monthly_summary, hps, hgt]
    norm_num [List.insertionSort, List.orderedInsert]
    decide

/-- C7 witness: the amended statement at the spec's worked example, plus
the key/take-7 coincidence at a padded date. -/
theorem c7_amended_witness :
    monthly_summary [⟨"2024-01-05", 10, "", "Food"⟩, ⟨"2024-01-20", 5, "", "Food"⟩,
        ⟨"2024-02-01", 7, "", "Other"⟩]
      = .rows (monthly_declarative [⟨"2024-01-05", 10, "", "Food"⟩,
          ⟨"2024-01-20", 5, "", "Food"⟩, ⟨"2024-02-01", 7, "", "Other"⟩]) ∧
    month_key 2024 1 = ("2024-01-05" : String).take 7 :=
  ⟨c7_amended_monthly_summary.1 _ [("2024-01", 10), ("2024-01", 5), ("2024-02", 7)]
     (by simp) (by decide),
   c7_amended_monthly_summary.2.2 "2024-01-05" 2024 1 5 (by decide) (by decide)⟩

/-! ## C9: the date-range filter -/

theorem char_lt_iff_toNat {a b : Char} : a < b ↔ a.toNat < b.toNat := Iff.rfl

theorem char_eq_iff_toNat {a b : Char} : a = b ↔ a.toNat = b.toNat := by
  constructor
  · exact congrArg Char.toNat
  · intro h
    have h2 := congrArg Char.ofNat h
    rwa [Char.ofNat_toNat, Char.ofNat_toNat] at h2

theorem lex_cons_iff' {r : Char → Char → Prop} {a b : Char} {l₁ l₂ : List Char} :
    List.Lex r (a :: l₁) (b :: l₂) ↔ r a b ∨ (a = b ∧ List.Lex r l₁ l₂) := by
  constructor
  · intro h
    cases h with
    | rel h => exact Or.inl h
    | cons h => exact Or.inr ⟨rfl, h⟩
  · rintro (h | ⟨rfl, h⟩)
    · exact List.Lex.rel h
    · exact List.Lex.cons h

theorem lex_nil_nil_iff {r : Char → Char → Prop} : List.Lex r [] [] ↔ False := by
  constructor
  · intro h
    cases h
  · exact False.elim

/-- Destructuring a zero-padded date string into its ten characters. -/
theorem padded_shape {s : String} (h : is_padded_date s = true) :
    ∃ a1 a2 a3 a4 b1 b2 g1 g2 : Char,
      s.toList = [a1, a2, a3, a4, '-', b1, b2, '-', g1, g2] ∧
      a1.isDigit = true ∧ a2.isDigit = true ∧ a3.isDigit = true ∧ a4.isDigit = true ∧
      b1.isDigit = true ∧ b2.isDigit = true ∧ g1.isDigit = true ∧ g2.isDigit = true := by
  unfold is_padded_date at h
  split at h
  case h_1 y1 y2 y3 y4 h1 m1 m2 h2 d1 d2 heq =>
    simp only [Bool.and_eq_true, decide_eq_true_eq] at h
    obtain ⟨⟨⟨⟨⟨⟨⟨⟨⟨hy1, hy2⟩, hy3⟩, hy4⟩, hh1⟩, hh2⟩, hm1⟩, hm2⟩, hd1⟩, hd2⟩ := h
    subst hh1
    subst hh2
    exact ⟨_, _, _, _, _, _, _, _, heq, hy1, hy2, hy3, hy4, hm1, hm2, hd1, hd2⟩
  case h_2 => exact absurd h (by simp)

/-- What `strptime` returns on a padded date: the numeric values of the
three digit blocks. -/
theorem strptime_padded_values {s : String} {y m d : ℕ} {a1 a2 a3 a4 b1 b2 g1 g2 : Char}
    (heq : s.toList = [a1, a2, a3, a4, '-', b1, b2, '-', g1, g2])
    (ha1 : a1.isDigit = true) (ha2 : a2.isDigit = true) (ha3 : a3.isDigit = true)
    (ha4 : a4.isDigit = true) (hb1 : b1.isDigit = true) (hb2 : b2.isDigit = true)
    (hg1 : g1.isDigit = true) (hg2 : g2.isDigit = true)
    (hp : strptime_ymd s = some (y, m, d)) :
    y = digits_to_nat [a1, a2, a3, a4] ∧ m = digits_to_nat [b1, b2] ∧
      d = digits_to_nat [g1, g2] := by
  unfold strptime_ymd at hp
  rw [heq] at hp
  simp only [split_dashes, if_neg (digit_ne_dash ha1), if_neg (digit_ne_dash ha2),
    if_neg (digit_ne_dash ha3), if_neg (digit_ne_dash ha4),
    if_neg (digit_ne_dash hb1), if_neg (digit_ne_dash hb2),
    if_neg (digit_ne_dash hg1), if_neg (digit_ne_dash hg2), if_pos rfl] at hp
  simp only [year_field, month_field, day_field, List.length_cons, List.length_nil,
    List.all_cons, List.all_nil, ha1, ha2, ha3, ha4, hb1, hb2, hg1, hg2,
    Bool.and_true, Bool.and_self, if_pos, Option.bind_eq_bind] at hp
  norm_num at hp
  split at hp
  case isTrue =>
    split at hp
    case isTrue =>
      simp only [Option.some_bind] at hp
      split at hp
      case isTrue =>
        rw [Option.some.injEq] at hp
        exact ⟨(congrArg (fun p => p.1) hp).symm, (congrArg (fun p => p.2.1) hp).symm,
          (congrArg (fun p => p.2.2) hp).symm⟩
      case isFalse => exact absurd hp (by simp)
    case isFalse => exact absurd hp (by simp)
  case isFalse => exact absurd hp (by simp)

/-- On zero-padded ISO dates, lexicographic string order coincides with
chronological (year, month, day) order. -/
theorem padded_le_iff_chronological {s t : String} {ys ms ds yt mt dt : ℕ}
    (hps : is_padded_date s = true) (hpt : is_padded_date t = true)
    (hs : strptime_ymd s = some (ys, ms, ds)) (ht : strptime_ymd t = some (yt, mt, dt)) :
    (s ≤ t ↔ (ys < yt ∨ (ys = yt ∧ (ms < mt ∨ (ms = mt ∧ ds ≤ dt))))) := by
  obtain ⟨a1, a2, a3, a4, b1, b2, g1, g2, heqs, ha1, ha2, ha3, ha4, hb1, hb2, hg1, hg2⟩ :=
    padded_shape hps
  obtain ⟨p1, p2, p3, p4, q1, q2, r1, r2, heqt, hp1, hp2, hp3, hp4, hq1, hq2, hr1, hr2⟩ :=
    padded_shape hpt
  obtain ⟨rfl, rfl, rfl⟩ :=
    strptime_padded_values heqs ha1 ha2 ha3 ha4 hb1 hb2 hg1 hg2 hs
  obtain ⟨rfl, rfl, rfl⟩ :=
    strptime_padded_values heqt hp1 hp2 hp3 hp4 hq1 hq2 hr1 hr2 ht
  obtain ⟨hA1, hA1'⟩ := char_digit_toNat ha1
  obtain ⟨hA2, hA2'⟩ := char_digit_toNat ha2
  obtain ⟨hA3, hA3'⟩ := char_digit_toNat ha3
  obtain ⟨hA4, hA4'⟩ := char_digit_toNat ha4
  obtain ⟨hB1, hB1'⟩ := char_digit_toNat hb1
  obtain ⟨hB2, hB2'⟩ := char_digit_toNat hb2
  obtain ⟨hG1, hG1'⟩ := char_digit_toNat hg1
  obtain ⟨hG2, hG2'⟩ := char_digit_toNat hg2
  obtain ⟨hP1, hP1'⟩ := char_digit_toNat hp1
  obtain ⟨hP2, hP2'⟩ := char_digit_toNat hp2
  obtain ⟨hP3, hP3'⟩ := char_digit_toNat hp3
  obtain ⟨hP4, hP4'⟩ := char_digit_toNat hp4
  obtain ⟨hQ1, hQ1'⟩ := char_digit_toNat hq1
  obtain ⟨hQ2, hQ2'⟩ := char_digit_toNat hq2
  obtain ⟨hR1, hR1'⟩ := char_digit_toNat hr1
  obtain ⟨hR2, hR2'⟩ := char_digit_toNat hr2
  rw [← not_lt]
  have hlt : (t < s) ↔ List.Lex (· < ·) t.toList s.toList := by
    rw [String.lt_iff_toList_lt]
    exact Iff.rfl
  rw [hlt, heqt, heqs]
  simp only [lex_cons_iff', lex_nil_nil_iff, char_lt_iff_toNat, char_eq_iff_toNat,
    lt_self_iff_false, false_or, true_and, and_false, or_false]
  simp only [digits_to_nat, List.foldl_cons, List.foldl_nil]
  omega

/-- C9: the date-range filter selects exactly the records whose date
string lies in `[start, end]` under lexicographic string comparison; when
`end < start` the result is empty (no swap, no error); and on zero-padded
ISO dates the lexicographic order coincides with chronological
(year, month, day) order as recovered by the code's own date parser. -/
theorem c9_filter_by_date_range :
    (∀ (startD endD : String) (es : List Expense) (e : Expense),
      e ∈ filter_by_date_range startD endD es ↔
        e ∈ es ∧ startD ≤ e.date ∧ e.date ≤ endD) ∧
    (∀ (startD endD : String) (es : List Expense), endD < startD →
      filter_by_date_range startD endD es = []) ∧
    (∀ (s t : String) (ys ms ds yt mt dt : ℕ),
      is_padded_date s = true → is_padded_date t = true →
      strptime_ymd s = some (ys, ms, ds) → strptime_ymd t = some (yt, mt, dt) →
      (s ≤ t ↔ (ys < yt ∨ (ys = yt ∧ (ms < mt ∨ (ms = mt ∧ ds ≤ dt)))))) := by
  refine ⟨?_, ?_, ?_⟩
  · intro startD endD es e
    simp [filter_by_date_range, List.mem_filter]
  · intro startD endD es hlt
    rw [filter_by_date_range]
    rw [List.filter_eq_nil_iff]
    intro e _
    simp only [Bool.and_eq_true, decide_eq_true_eq, not_and]
    intro h1 h2
    exact absurd (le_trans h1 h2) (not_le.mpr hlt)
  · intro s t ys ms ds yt mt dt hps hpt hs ht
    exact padded_le_iff_chronological hps hpt hs ht

/-- C9 witness: the spec's worked filter example (`2024-01-20` is kept,
the bounds reversed give the empty list) and the chronology bridge at two
concrete padded dates. -/
theorem c9_witness :
    ((⟨"2024-01-20", 5, "", "Food"⟩ : Expense)
        ∈ filter_by_date_range "2024-01-10" "2024-01-31"
          [⟨"2024-01-05", 10, "", "Food"⟩, ⟨"2024-01-20", 5, "", "Food"⟩,
            ⟨"2024-02-01", 7, "", "Other"⟩] ↔
      (⟨"2024-01-20", 5, "", "Food"⟩ : Expense)
          ∈ [⟨"2024-01-05", 10, "", "Food"⟩, ⟨"2024-01-20", 5, "", "Food"⟩,
              ⟨"2024-02-01", 7, "", "Other"⟩] ∧
        ("2024-01-10" : String) ≤ "2024-01-20" ∧ ("2024-01-20" : String) ≤ "2024-01-31") ∧
    filter_by_date_range "2024-02-01" "2024-01-01" [⟨"2024-01-05", 10, "", "Food"⟩] = [] ∧
    (("2024-01-05" : String) ≤ "2024-01-20" ↔
      (2024 < 2024 ∨ (2024 = 2024 ∧ (1 < 1 ∨ (1 = 1 ∧ 5 ≤ 20))))) :=
  ⟨c9_filter_by_date_range.1 "2024-01-10" "2024-01-31" _ _,
   c9_filter_by_date_range.2.1 "2024-02-01" "2024-01-01" _
     (by rw [String.lt_iff_toList_lt]; decide),
   c9_filter_by_date_range.2.2 "2024-01-05" "2024-01-20" 2024 1 5 2024 1 20
     (by decide) (by decide) (by decide) (by decide)⟩
